import Mathlib

/-!
Verification of the TgCaller streaming library against its specification.

The Python modules are shallowly embedded: each class becomes a structure,
each method a pure function on that structure (explicit state passing),
machine floats become rationals, raised exceptions become `Except` values.
Sources embedded here:
  tgcaller/streaming/fast_stream_buffer.py  (FastStreamBuffer)
  tgcaller/streaming/buffer_manager.py      (BufferManager)
  tgcaller/internal/retry_manager.py        (RetryManager)
  tgcaller/internal/cache_manager.py        (CacheManager)
  tgcaller/handlers/event_system.py         (EventHandlerSystem)
  tgcaller/methods/stream_methods.py        (StreamMethods)
-/

set_option autoImplicit false

/-- Embedding of `BufferState` enumeration from fast_stream_buffer.py. -/
inductive BufferState where
  | idle
  | filling
  | ready
  | streaming
  | underrun
  | overflow
  | error
deriving DecidableEq

/-- Embedding of `StreamChunk` dataclass: one buffered chunk.  The `chunk_type` and
`metadata` fields of the Python dataclass play no role in the buffering
logic and are omitted. -/
structure StreamChunk where
  data : List Nat
  timestamp : ℚ
  sequence : Nat
  duration_ms : ℚ
deriving DecidableEq

/-- Embedding of `BufferConfig` dataclass: scalars governing one buffer. -/
structure BufferConfig where
  max_buffer_size : Nat
  min_buffer_size : Nat
  target_buffer_size : Nat
  chunk_duration_ms : ℚ
  max_latency_ms : ℚ
  underrun_threshold : Nat
  adaptive_quality : Bool
  drop_on_overflow : Bool
  prioritize_recent : Bool
deriving DecidableEq

/-- The default `BufferConfig` field values from the Python dataclass. -/
def defaultBufferConfig : BufferConfig :=
  ⟨50, 5, 20, 20, 100, 3, true, true, true⟩

/-- The statistics dictionary of `FastStreamBuffer` (counters relevant to
the buffering logic; the derived float metrics are omitted). -/
structure BufferStatistics where
  chunks_produced : Nat
  chunks_consumed : Nat
  chunks_dropped : Nat
  underruns : Nat
  overflows : Nat
deriving DecidableEq

/-- Fresh statistics, all counters zero. -/
def initBufferStatistics : BufferStatistics := ⟨0, 0, 0, 0, 0⟩

/-- Mutable state of a `FastStreamBuffer`: configuration, lifecycle state,
the deque of chunks (head of the list = left end = oldest chunk), the
sequence counter and the statistics. -/
structure FastStreamBuffer where
  config : BufferConfig
  state : BufferState
  buffer : List StreamChunk
  sequence_counter : Nat
  stats : BufferStatistics
deriving DecidableEq

/-- A freshly constructed `FastStreamBuffer`. -/
def initFastStreamBuffer (config : BufferConfig) : FastStreamBuffer :=
  ⟨config, .idle, [], 0, initBufferStatistics⟩

/-- Embedding of `FastStreamBuffer._set_state`: store the new state (callbacks are
observers only and are not modelled). -/
def set_state (b : FastStreamBuffer) (new_state : BufferState) : FastStreamBuffer :=
  if b.state ≠ new_state then { b with state := new_state } else b

/-- Embedding of `FastStreamBuffer._get_next_sequence`: increment and return the
sequence counter. -/
def get_next_sequence (b : FastStreamBuffer) : Nat × FastStreamBuffer :=
  (b.sequence_counter + 1, { b with sequence_counter := b.sequence_counter + 1 })

/-- The tail of `FastStreamBuffer._add_chunk_to_buffer`: append the chunk,
then update the state from the resulting buffer level. -/
def append_and_update_state (b : FastStreamBuffer) (chunk : StreamChunk) : FastStreamBuffer :=
  let b1 : FastStreamBuffer := { b with buffer := b.buffer ++ [chunk] }
  let buffer_level := b1.buffer.length
  if b1.state = .filling ∧ buffer_level ≥ b1.config.min_buffer_size then
    set_state b1 .ready
  else if buffer_level ≥ b1.config.target_buffer_size then
    set_state b1 .streaming
  else
    b1

/-- Embedding of `FastStreamBuffer._add_chunk_to_buffer`: overflow handling followed by
append.  When the buffer is full and `drop_on_overflow` is set, the oldest
chunk is popped from the left and both `chunks_dropped` and `overflows`
are incremented; when it is not set, only `chunks_dropped` is incremented
and the incoming chunk is discarded. -/
def add_chunk_to_buffer (b : FastStreamBuffer) (chunk : StreamChunk) : FastStreamBuffer :=
  if b.buffer.length ≥ b.config.max_buffer_size then
    if b.config.drop_on_overflow then
      let b1 : FastStreamBuffer :=
        { b with
          buffer := b.buffer.tail
          stats := { b.stats with
                     chunks_dropped := b.stats.chunks_dropped + 1
                     overflows := b.stats.overflows + 1 } }
      append_and_update_state b1 chunk
    else
      { b with stats := { b.stats with chunks_dropped := b.stats.chunks_dropped + 1 } }
  else
    append_and_update_state b chunk

/-- Embedding of `FastStreamBuffer._process_raw_chunk`: wrap raw data into a
`StreamChunk` with the next sequence number, add it to the buffer and
bump `chunks_produced`. -/
def process_raw_chunk (b : FastStreamBuffer) (raw_data : List Nat) (now : ℚ) : FastStreamBuffer :=
  let sb := get_next_sequence b
  let chunk : StreamChunk :=
    ⟨raw_data, now, sb.1, sb.2.config.chunk_duration_ms⟩
  let b2 := add_chunk_to_buffer sb.2 chunk
  { b2 with stats := { b2.stats with chunks_produced := b2.stats.chunks_produced + 1 } }

/-- Embedding of `FastStreamBuffer._get_next_chunk`: dequeue one chunk — the newest
(right end) when `prioritize_recent`, else the oldest (left end) — and
update the state from the remaining level; on an empty buffer record an
underrun when streaming. -/
def get_next_chunk (b : FastStreamBuffer) : Option StreamChunk × FastStreamBuffer :=
  match b.buffer with
  | [] =>
    if b.state = .streaming then
      (none, { set_state b .underrun with
               stats := { b.stats with underruns := b.stats.underruns + 1 } })
    else
      (none, b)
  | c :: cs =>
    let chunk :=
      if b.config.prioritize_recent then (c :: cs).getLast (List.cons_ne_nil c cs) else c
    let rest := if b.config.prioritize_recent then (c :: cs).dropLast else cs
    let b1 : FastStreamBuffer := { b with buffer := rest }
    let remaining := rest.length
    let b2 :=
      if remaining ≤ b1.config.underrun_threshold then
        if b1.state = .streaming then set_state b1 .underrun else b1
      else if remaining ≥ b1.config.target_buffer_size then
        if b1.state = .underrun then set_state b1 .streaming else b1
      else
        b1
    (some chunk, b2)

/-- Embedding of `FastStreamBuffer.start_buffering`: refuse (returning `false`, the
`AlreadyActive` failure) when the state is not `idle`; otherwise move to
`filling` and report success.  The producer/consumer/monitor tasks it
spawns are asynchronous observers and are not part of the state
transition. -/
def start_buffering (b : FastStreamBuffer) : Bool × FastStreamBuffer :=
  if b.state ≠ .idle then
    (false, b)
  else
    (true, set_state b .filling)

/-- Claim C1 (amended): on an enqueue into a full buffer, with
`drop_on_overflow` the oldest chunk is removed, the new one appended, and
both `chunks_dropped` and `overflows` are incremented by one; without it
the buffer is unchanged, `chunks_dropped` is incremented by one, and
`overflows` is unchanged. -/
theorem add_chunk_full_buffer (b : FastStreamBuffer) (chunk : StreamChunk)
    (hfull : b.buffer.length = b.config.max_buffer_size) :
    (b.config.drop_on_overflow = true →
      (add_chunk_to_buffer b chunk).buffer = b.buffer.tail ++ [chunk] ∧
      (add_chunk_to_buffer b chunk).stats.chunks_dropped = b.stats.chunks_dropped + 1 ∧
      (add_chunk_to_buffer b chunk).stats.overflows = b.stats.overflows + 1) ∧
    (b.config.drop_on_overflow = false →
      (add_chunk_to_buffer b chunk).buffer = b.buffer ∧
      (add_chunk_to_buffer b chunk).stats.chunks_dropped = b.stats.chunks_dropped + 1 ∧
      (add_chunk_to_buffer b chunk).stats.overflows = b.stats.overflows) := by
  constructor
  · intro hdrop
    have hge : b.buffer.length ≥ b.config.max_buffer_size := le_of_eq hfull.symm
    simp only [add_chunk_to_buffer, if_pos hge, hdrop, if_pos]
    simp only [append_and_update_state, set_state]
    refine ⟨?_, ?_, ?_⟩ <;> (split_ifs <;> rfl)
  · intro hdrop
    have hge : b.buffer.length ≥ b.config.max_buffer_size := le_of_eq hfull.symm
    simp [add_chunk_to_buffer, if_pos hge, hdrop]

/-- Witness for `add_chunk_full_buffer` at a concrete full buffer. -/
theorem add_chunk_full_buffer_witness :
    (let b : FastStreamBuffer :=
      ⟨⟨1, 1, 1, 20, 100, 3, true, false, true⟩, .idle, [⟨[], 0, 1, 20⟩], 1,
        initBufferStatistics⟩
     let chunk : StreamChunk := ⟨[7], 0, 2, 20⟩
     b.buffer.length = b.config.max_buffer_size ∧
       (add_chunk_to_buffer b chunk).buffer = b.buffer ∧
       (add_chunk_to_buffer b chunk).stats.overflows = b.stats.overflows) := by
  refine ⟨rfl, ?_, ?_⟩
  · exact ((add_chunk_full_buffer _ _ rfl).2 rfl).1
  · exact ((add_chunk_full_buffer _ _ rfl).2 rfl).2.2

/-- Claim C1 counterexample: with `drop_on_overflow = false` the incoming
chunk is discarded but the `overflows` counter is NOT incremented, contrary
to the claim that both counters advance in either case. -/
theorem add_chunk_no_drop_overflow_counter_stays :
    (let b : FastStreamBuffer :=
      ⟨⟨1, 1, 1, 20, 100, 3, true, false, true⟩, .idle, [⟨[], 0, 1, 20⟩], 1,
        initBufferStatistics⟩
     let chunk : StreamChunk := ⟨[7], 0, 2, 20⟩
     (add_chunk_to_buffer b chunk).stats.overflows ≠ b.stats.overflows + 1) := by
  decide

/-- Claim C7: `start_buffering` fails (the `AlreadyActive` failure, reported
as `false`) whenever the state is not `idle`, leaving the buffer unchanged;
on success from `idle` it reports `true` and the state becomes `filling`. -/
theorem start_buffering_lifecycle (b : FastStreamBuffer) :
    (b.state ≠ .idle → start_buffering b = (false, b)) ∧
    (b.state = .idle →
      (start_buffering b).1 = true ∧ (start_buffering b).2.state = .filling ∧
      (start_buffering b).2.buffer = b.buffer ∧
      (start_buffering b).2.stats = b.stats) := by
  constructor
  · intro hne
    simp [start_buffering, hne]
  · intro hidle
    simp only [start_buffering, hidle, ne_eq, not_true_eq_false, if_false, set_state]
    split_ifs <;> simp_all

/-- Witness for `start_buffering_lifecycle`: a fresh buffer is `idle` and
starts into `filling`; a `streaming` buffer is refused unchanged. -/
theorem start_buffering_lifecycle_witness :
    ((initFastStreamBuffer defaultBufferConfig).state = .idle ∧
      (start_buffering (initFastStreamBuffer defaultBufferConfig)).1 = true ∧
      (start_buffering (initFastStreamBuffer defaultBufferConfig)).2.state = .filling) ∧
    ((set_state (initFastStreamBuffer defaultBufferConfig) .streaming).state ≠ .idle ∧
      start_buffering (set_state (initFastStreamBuffer defaultBufferConfig) .streaming) =
        (false, set_state (initFastStreamBuffer defaultBufferConfig) .streaming)) := by
  constructor
  · exact ⟨rfl, ((start_buffering_lifecycle _).2 rfl).1,
      ((start_buffering_lifecycle _).2 rfl).2.1⟩
  · exact ⟨by decide, (start_buffering_lifecycle _).1 (by decide)⟩

/-- One externally visible operation on a `FastStreamBuffer`: the producer
enqueues one raw block (`_process_raw_chunk`), or the consumer dequeues one
chunk (`_get_next_chunk`). -/
inductive BufferOp where
  | enqueue (raw_data : List Nat) (now : ℚ)
  | dequeue
deriving DecidableEq

/-- A buffer together with the histories the claims speak about: the
sequence numbers of all enqueued chunks in production order, and the
sequence numbers of the dequeued chunks in consumption order. -/
structure BufferTrace where
  buf : FastStreamBuffer
  enqueued : List Nat
  dequeued : List Nat
deriving DecidableEq

/-- Apply one operation to a trace.  An enqueue records the sequence number
the chunk receives (`sequence_counter + 1`); a dequeue records the sequence
number of the returned chunk, when any. -/
def traceStep (s : BufferTrace) : BufferOp → BufferTrace
  | .enqueue raw_data now =>
    { buf := process_raw_chunk s.buf raw_data now
      enqueued := s.enqueued ++ [s.buf.sequence_counter + 1]
      dequeued := s.dequeued }
  | .dequeue =>
    let cb := get_next_chunk s.buf
    { buf := cb.2
      enqueued := s.enqueued
      dequeued := s.dequeued ++ (cb.1.map (fun c => c.sequence)).toList }

/-- Run a lifetime of operations on a freshly created buffer. -/
def runTrace (config : BufferConfig) (ops : List BufferOp) : BufferTrace :=
  ops.foldl traceStep ⟨initFastStreamBuffer config, [], []⟩

/-- Lemma: `_set_state` only touches the `state` field. -/
theorem set_state_buffer (b : FastStreamBuffer) (st : BufferState) :
    (set_state b st).buffer = b.buffer := by
  simp only [set_state]; split_ifs <;> rfl

/-- Lemma: `_set_state` leaves the sequence counter alone. -/
theorem set_state_sequence_counter (b : FastStreamBuffer) (st : BufferState) :
    (set_state b st).sequence_counter = b.sequence_counter := by
  simp only [set_state]; split_ifs <;> rfl

/-- Lemma: `_set_state` leaves the configuration alone. -/
theorem set_state_config (b : FastStreamBuffer) (st : BufferState) :
    (set_state b st).config = b.config := by
  simp only [set_state]; split_ifs <;> rfl

/-- The append phase of `_add_chunk_to_buffer` appends on the right. -/
theorem append_and_update_state_buffer (b : FastStreamBuffer) (chunk : StreamChunk) :
    (append_and_update_state b chunk).buffer = b.buffer ++ [chunk] := by
  simp only [append_and_update_state]
  split_ifs <;> simp [set_state_buffer]

/-- The append phase leaves the sequence counter alone. -/
theorem append_and_update_state_sequence_counter (b : FastStreamBuffer) (chunk : StreamChunk) :
    (append_and_update_state b chunk).sequence_counter = b.sequence_counter := by
  simp only [append_and_update_state]
  split_ifs <;> simp [set_state_sequence_counter]

/-- The append phase leaves the configuration alone. -/
theorem append_and_update_state_config (b : FastStreamBuffer) (chunk : StreamChunk) :
    (append_and_update_state b chunk).config = b.config := by
  simp only [append_and_update_state]
  split_ifs <;> simp [set_state_config]

/-- Buffer contents after `_add_chunk_to_buffer`, in all three branches. -/
theorem add_chunk_to_buffer_buffer (b : FastStreamBuffer) (chunk : StreamChunk) :
    (add_chunk_to_buffer b chunk).buffer =
      if b.config.max_buffer_size ≤ b.buffer.length then
        if b.config.drop_on_overflow then b.buffer.tail ++ [chunk] else b.buffer
      else
        b.buffer ++ [chunk] := by
  simp only [add_chunk_to_buffer, ge_iff_le]
  split_ifs <;> simp [append_and_update_state_buffer]

/-- Lemma: `_add_chunk_to_buffer` leaves the sequence counter alone. -/
theorem add_chunk_to_buffer_sequence_counter (b : FastStreamBuffer) (chunk : StreamChunk) :
    (add_chunk_to_buffer b chunk).sequence_counter = b.sequence_counter := by
  simp only [add_chunk_to_buffer]
  split_ifs <;> simp [append_and_update_state_sequence_counter]

/-- Lemma: `_add_chunk_to_buffer` leaves the configuration alone. -/
theorem add_chunk_to_buffer_config (b : FastStreamBuffer) (chunk : StreamChunk) :
    (add_chunk_to_buffer b chunk).config = b.config := by
  simp only [add_chunk_to_buffer]
  split_ifs <;> simp [append_and_update_state_config]

/-- Buffer contents after `_process_raw_chunk`: the produced chunk carries
sequence number `sequence_counter + 1` and lands per the overflow policy. -/
theorem process_raw_chunk_buffer (b : FastStreamBuffer) (raw_data : List Nat) (now : ℚ) :
    (process_raw_chunk b raw_data now).buffer =
      (if b.config.max_buffer_size ≤ b.buffer.length then
        if b.config.drop_on_overflow then
          b.buffer.tail ++ [⟨raw_data, now, b.sequence_counter + 1, b.config.chunk_duration_ms⟩]
        else b.buffer
      else
        b.buffer ++ [⟨raw_data, now, b.sequence_counter + 1, b.config.chunk_duration_ms⟩]) := by
  simp only [process_raw_chunk, get_next_sequence]
  rw [add_chunk_to_buffer_buffer]

/-- Lemma: `_process_raw_chunk` advances the sequence counter by one. -/
theorem process_raw_chunk_sequence_counter (b : FastStreamBuffer) (raw_data : List Nat) (now : ℚ) :
    (process_raw_chunk b raw_data now).sequence_counter = b.sequence_counter + 1 := by
  simp only [process_raw_chunk, get_next_sequence]
  rw [add_chunk_to_buffer_sequence_counter]

/-- Lemma: `_process_raw_chunk` leaves the configuration alone. -/
theorem process_raw_chunk_config (b : FastStreamBuffer) (raw_data : List Nat) (now : ℚ) :
    (process_raw_chunk b raw_data now).config = b.config := by
  simp only [process_raw_chunk, get_next_sequence]
  rw [add_chunk_to_buffer_config]

/-- In oldest-first mode (`prioritize_recent = false`), one `_get_next_chunk`
step splits the buffer's sequence list at the front, and preserves the
counter and configuration. -/
theorem get_next_chunk_fifo (b : FastStreamBuffer)
    (hpr : b.config.prioritize_recent = false) :
    ((get_next_chunk b).1.map (fun c => c.sequence)).toList ++
        (get_next_chunk b).2.buffer.map (fun c => c.sequence) =
      b.buffer.map (fun c => c.sequence) ∧
    (get_next_chunk b).2.sequence_counter = b.sequence_counter ∧
    (get_next_chunk b).2.config = b.config := by
  rcases hb : b.buffer with _ | ⟨c, cs⟩ <;>
    · simp only [get_next_chunk, hb, hpr]
      split_ifs <;>
        simp_all [set_state_buffer, set_state_sequence_counter, set_state_config]

/-- The invariant carried through a FIFO buffer lifetime: the dequeued
history followed by the live buffer's sequence numbers is strictly
increasing, is a sublist of the enqueue history, and is bounded by the
sequence counter. -/
def TraceInv (s : BufferTrace) : Prop :=
  List.Sorted (· < ·) (s.dequeued ++ s.buf.buffer.map (fun c => c.sequence)) ∧
  (s.dequeued ++ s.buf.buffer.map (fun c => c.sequence)).Sublist s.enqueued ∧
  ∀ x ∈ s.dequeued ++ s.buf.buffer.map (fun c => c.sequence), x ≤ s.buf.sequence_counter

/-- The empty lifetime satisfies the invariant. -/
theorem traceInv_init (config : BufferConfig) :
    TraceInv ⟨initFastStreamBuffer config, [], []⟩ := by
  refine ⟨by simp [initFastStreamBuffer], by simp [initFastStreamBuffer],
    by simp [initFastStreamBuffer]⟩

/-- One step preserves the FIFO trace invariant. -/
theorem traceStep_inv (s : BufferTrace) (op : BufferOp)
    (hpr : s.buf.config.prioritize_recent = false) (h : TraceInv s) :
    TraceInv (traceStep s op) := by
  obtain ⟨hsort, hsub, hbound⟩ := h
  cases op with
  | enqueue raw_data now =>
    simp only [traceStep, TraceInv, process_raw_chunk_buffer,
      process_raw_chunk_sequence_counter]
    set c := s.buf.sequence_counter with hc
    split_ifs with h1 h2
    · -- full buffer, drop oldest, append the new chunk
      rw [List.map_append, ← List.append_assoc]
      have htail : (s.dequeued ++ s.buf.buffer.tail.map (fun c => c.sequence)).Sublist
          (s.dequeued ++ s.buf.buffer.map (fun c => c.sequence)) :=
        List.Sublist.append_left ((List.tail_sublist _).map _) _
      refine ⟨?_, ?_, ?_⟩
      · refine List.pairwise_append.mpr ⟨hsort.sublist htail, by simp, ?_⟩
        intro a ha b hb
        simp only [List.map_cons, List.map_nil, List.mem_singleton] at hb
        subst hb
        exact Nat.lt_succ_of_le (hbound a (htail.mem ha))
      · exact List.Sublist.append (htail.trans hsub) (List.Sublist.refl _)
      · intro x hx
        rw [List.mem_append] at hx
        rcases hx with hx | hx
        · exact Nat.le_succ_of_le (hbound x (htail.mem hx))
        · simp only [List.map_cons, List.map_nil, List.mem_singleton] at hx
          exact le_of_eq hx
    · -- full buffer, incoming chunk discarded
      refine ⟨hsort, hsub.trans (List.sublist_append_left _ _), ?_⟩
      intro x hx
      exact Nat.le_succ_of_le (hbound x hx)
    · -- room available, plain append
      rw [List.map_append, ← List.append_assoc]
      refine ⟨?_, ?_, ?_⟩
      · refine List.pairwise_append.mpr ⟨hsort, by simp, ?_⟩
        intro a ha b hb
        simp only [List.map_cons, List.map_nil, List.mem_singleton] at hb
        subst hb
        exact Nat.lt_succ_of_le (hbound a ha)
      · exact List.Sublist.append hsub (List.Sublist.refl _)
      · intro x hx
        rw [List.mem_append] at hx
        rcases hx with hx | hx
        · exact Nat.le_succ_of_le (hbound x hx)
        · simp only [List.map_cons, List.map_nil, List.mem_singleton] at hx
          exact le_of_eq hx
  | dequeue =>
    obtain ⟨hsplit, hctr, _⟩ := get_next_chunk_fifo s.buf hpr
    simp only [traceStep, TraceInv, hctr]
    rw [List.append_assoc, hsplit]
    exact ⟨hsort, hsub, hbound⟩

/-- One step preserves the buffer configuration. -/
theorem traceStep_config (s : BufferTrace) (op : BufferOp) :
    (traceStep s op).buf.config = s.buf.config := by
  cases op with
  | enqueue raw_data now => simpa [traceStep] using process_raw_chunk_config s.buf raw_data now
  | dequeue =>
    rcases hb : s.buf.buffer with _ | ⟨c, cs⟩ <;>
      · simp only [traceStep, get_next_chunk, hb]
        split_ifs <;> simp [set_state_config]

/-- Folding any list of operations preserves the FIFO trace invariant. -/
theorem foldl_traceStep_inv (ops : List BufferOp) (s : BufferTrace)
    (hpr : s.buf.config.prioritize_recent = false) (h : TraceInv s) :
    TraceInv (ops.foldl traceStep s) := by
  induction ops generalizing s with
  | nil => exact h
  | cons op rest ih =>
    exact ih (traceStep s op)
      (by rw [traceStep_config]; exact hpr)
      (traceStep_inv s op hpr h)

/-- Claim C2 (amended): in oldest-first mode (`prioritize_recent = false`),
for every interleaving of enqueues and dequeues within one buffer lifetime
the dequeued sequence numbers form a strictly increasing subsequence of the
enqueued sequence numbers. -/
theorem dequeued_increasing_subsequence_of_fifo (config : BufferConfig)
    (ops : List BufferOp) (hpr : config.prioritize_recent = false) :
    List.Sorted (· < ·) (runTrace config ops).dequeued ∧
    (runTrace config ops).dequeued.Sublist (runTrace config ops).enqueued := by
  have h := foldl_traceStep_inv ops ⟨initFastStreamBuffer config, [], []⟩ hpr
    (traceInv_init config)
  obtain ⟨hsort, hsub, -⟩ := h
  refine ⟨hsort.sublist (List.sublist_append_left _ _), ?_⟩
  exact (List.sublist_append_left _ _).trans hsub

/-- Witness for `dequeued_increasing_subsequence_of_fifo` on a concrete
FIFO lifetime: two enqueues then two dequeues yield the history `[1, 2]`. -/
theorem dequeued_increasing_subsequence_of_fifo_witness :
    (let config : BufferConfig := ⟨50, 5, 20, 20, 100, 3, true, true, false⟩
     let ops : List BufferOp := [.enqueue [] 0, .enqueue [] 0, .dequeue, .dequeue]
     (runTrace config ops).dequeued = [1, 2] ∧
       List.Sorted (· < ·) (runTrace config ops).dequeued ∧
       (runTrace config ops).dequeued.Sublist (runTrace config ops).enqueued) :=
  ⟨by decide, dequeued_increasing_subsequence_of_fifo _ _ (by decide)⟩

/-- Claim C2 counterexample: with the newest-first policy
(`prioritize_recent = true`, the default), two enqueues followed by two
dequeues dequeue the sequences in the order `[2, 1]`, which is not a
strictly increasing subsequence of the enqueued order `[1, 2]`. -/
theorem dequeued_not_increasing_with_prioritize_recent :
    (let ops : List BufferOp := [.enqueue [] 0, .enqueue [] 0, .dequeue, .dequeue]
     (runTrace defaultBufferConfig ops).dequeued = [2, 1] ∧
       (runTrace defaultBufferConfig ops).enqueued = [1, 2] ∧
       ¬ (List.Sorted (· < ·) (runTrace defaultBufferConfig ops).dequeued ∧
          (runTrace defaultBufferConfig ops).dequeued.Sublist
            (runTrace defaultBufferConfig ops).enqueued)) := by
  refine ⟨by decide, by decide, ?_⟩
  intro h
  have := h.1
  rw [show (runTrace defaultBufferConfig
    [.enqueue [] 0, .enqueue [] 0, .dequeue, .dequeue]).dequeued = [2, 1] from by decide] at this
  exact absurd this (by decide)

/-- Embedding of `BufferPriority` enumeration from buffer_manager.py. -/
inductive BufferPriority where
  | low
  | normal
  | high
  | critical
deriving DecidableEq

/-- The numeric values of `BufferPriority`: low=1, normal=2, high=3,
critical=4. -/
def BufferPriority.value : BufferPriority → Nat
  | .low => 1
  | .normal => 2
  | .high => 3
  | .critical => 4

/-- One registry entry of `BufferManager`: the `buffers`,
`buffer_priorities` and (config part of) the created `FastStreamBuffer`
dictionaries, keyed by the same id.  Python dict semantics: keys are unique
and insertion order is preserved. -/
structure ManagedBuffer where
  id : String
  priority : BufferPriority
  config : BufferConfig
deriving DecidableEq

/-- Embedding of `BufferManager` state: the buffer limit and the registry in insertion
order. -/
structure BufferManager where
  max_buffers : Nat
  buffers : List ManagedBuffer
deriving DecidableEq

/-- The scan inside `BufferManager._free_low_priority_buffer`: walk the
registry keeping the strictly lowest priority seen so far and its id,
starting from `CRITICAL` and no id. -/
def find_lowest_priority :
    List ManagedBuffer → BufferPriority → Option String → BufferPriority × Option String
  | [], lowest, lowest_id => (lowest, lowest_id)
  | mb :: rest, lowest, lowest_id =>
    if mb.priority.value < lowest.value then
      find_lowest_priority rest mb.priority (some mb.id)
    else
      find_lowest_priority rest lowest lowest_id

/-- Deletion of a key from the registry (`del self.buffers[buffer_id]`
and its companion dicts). -/
def remove_buffer_entry : List ManagedBuffer → String → List ManagedBuffer
  | [], _ => []
  | mb :: rest, buffer_id =>
    if mb.id = buffer_id then rest else mb :: remove_buffer_entry rest buffer_id

/-- Embedding of `BufferManager.remove_buffer` (the registry part; stopping the removed
buffer only affects the removed buffer itself). -/
def remove_buffer (m : BufferManager) (buffer_id : String) : BufferManager :=
  { m with buffers := remove_buffer_entry m.buffers buffer_id }

/-- The empty string, which is falsy in Python: `if lowest_buffer_id`
rejects it. -/
def emptyBufferId : String := ""

/-- Embedding of `BufferManager._free_low_priority_buffer`: find the registered buffer
of strictly lowest priority; when one was found, its id is truthy (Python's
`if lowest_buffer_id` — `None` and the empty string fail it) and it is not
`CRITICAL`, remove it and report success, else report failure. -/
def free_low_priority_buffer (m : BufferManager) : Bool × BufferManager :=
  let res := find_lowest_priority m.buffers .critical none
  match res.2 with
  | some lowest_id =>
    if lowest_id ≠ emptyBufferId ∧ res.1 ≠ .critical then
      (true, remove_buffer m lowest_id)
    else
      (false, m)
  | none => (false, m)

/-- Embedding of `buffer_id in self.buffers` / `self.buffers[buffer_id]`. -/
def find_buffer (buffers : List ManagedBuffer) (buffer_id : String) : Option ManagedBuffer :=
  buffers.find? (fun mb => mb.id == buffer_id)

/-- Embedding of `BufferManager._create_adaptive_config`: start from the default config
and override the sizing and timing fields per priority. -/
def create_adaptive_config (priority : BufferPriority) : BufferConfig :=
  let base_config := defaultBufferConfig
  match priority with
  | .critical =>
    { base_config with
      max_buffer_size := 100, target_buffer_size := 40
      max_latency_ms := 50, chunk_duration_ms := 10 }
  | .high =>
    { base_config with
      max_buffer_size := 80, target_buffer_size := 30
      max_latency_ms := 80, chunk_duration_ms := 15 }
  | .normal =>
    { base_config with
      max_buffer_size := 50, target_buffer_size := 20
      max_latency_ms := 100, chunk_duration_ms := 20 }
  | .low =>
    { base_config with
      max_buffer_size := 30, target_buffer_size := 10
      max_latency_ms := 200, chunk_duration_ms := 30 }

/-- Embedding of `BufferManager.create_buffer`: when the registry is at or over the
limit, try to evict a low-priority buffer, refusing (returning `none`)
when that fails; then return the existing entry for a duplicate id, or
register a new buffer with the given or priority-synthesized config. -/
def create_buffer (m : BufferManager) (buffer_id : String) (config : Option BufferConfig)
    (priority : BufferPriority) : Option ManagedBuffer × BufferManager :=
  let admitted : Option BufferManager :=
    if m.buffers.length ≥ m.max_buffers then
      let fm := free_low_priority_buffer m
      if fm.1 then some fm.2 else none
    else
      some m
  match admitted with
  | none => (none, m)
  | some m1 =>
    match find_buffer m1.buffers buffer_id with
    | some existing => (some existing, m1)
    | none =>
      let buffer_config := config.getD (create_adaptive_config priority)
      let mb : ManagedBuffer := ⟨buffer_id, priority, buffer_config⟩
      (some mb, { m1 with buffers := m1.buffers ++ [mb] })

/-- The scan result is a lower bound for the start value and for every
priority in the scanned list. -/
theorem find_lowest_priority_le (l : List ManagedBuffer) (lowest : BufferPriority)
    (lowest_id : Option String) :
    (find_lowest_priority l lowest lowest_id).1.value ≤ lowest.value ∧
    ∀ mb ∈ l, (find_lowest_priority l lowest lowest_id).1.value ≤ mb.priority.value := by
  induction l generalizing lowest lowest_id with
  | nil => exact ⟨le_refl _, by simp⟩
  | cons mb rest ih =>
    simp only [find_lowest_priority]
    split_ifs with h
    · obtain ⟨h1, h2⟩ := ih mb.priority (some mb.id)
      refine ⟨h1.trans (le_of_lt h), ?_⟩
      intro mb2 hmb2
      rcases List.mem_cons.mp hmb2 with rfl | hmem
      · exact h1
      · exact h2 mb2 hmem
    · obtain ⟨h1, h2⟩ := ih lowest lowest_id
      refine ⟨h1, ?_⟩
      intro mb2 hmb2
      rcases List.mem_cons.mp hmb2 with rfl | hmem
      · exact h1.trans (not_lt.mp h)
      · exact h2 mb2 hmem

/-- The scan either returns its starting accumulator unchanged, or the
priority and id of some list entry strictly below the start value. -/
theorem find_lowest_priority_cases (l : List ManagedBuffer) (lowest : BufferPriority)
    (lowest_id : Option String) :
    ((find_lowest_priority l lowest lowest_id).1 = lowest ∧
      (find_lowest_priority l lowest lowest_id).2 = lowest_id) ∨
    ∃ mb ∈ l, (find_lowest_priority l lowest lowest_id).2 = some mb.id ∧
      (find_lowest_priority l lowest lowest_id).1 = mb.priority ∧
      mb.priority.value < lowest.value := by
  induction l generalizing lowest lowest_id with
  | nil => exact Or.inl ⟨rfl, rfl⟩
  | cons mb rest ih =>
    simp only [find_lowest_priority]
    split_ifs with h
    · rcases ih mb.priority (some mb.id) with ⟨h1, h2⟩ | ⟨mb2, hmem, h1, h2, h3⟩
      · exact Or.inr ⟨mb, List.mem_cons_self mb rest, h2, h1, h⟩
      · exact Or.inr ⟨mb2, List.mem_cons_of_mem _ hmem, h1, h2, h3.trans h⟩
    · rcases ih lowest lowest_id with ⟨h1, h2⟩ | ⟨mb2, hmem, h1, h2, h3⟩
      · exact Or.inl ⟨h1, h2⟩
      · exact Or.inr ⟨mb2, List.mem_cons_of_mem _ hmem, h1, h2, h3⟩

/-- A priority is below `critical` numerically iff it is not `critical`. -/
theorem priority_value_lt_four (p : BufferPriority) :
    p.value < 4 ↔ p ≠ .critical := by
  cases p <;> simp [BufferPriority.value]

/-- Deleting a present key removes exactly that one entry: the registry
splits around the first entry carrying the key. -/
theorem remove_buffer_entry_split (l : List ManagedBuffer) (i : String)
    (h : ∃ mb ∈ l, mb.id = i) :
    ∃ l1 mb l2, l = l1 ++ mb :: l2 ∧ mb.id = i ∧
      remove_buffer_entry l i = l1 ++ l2 := by
  induction l with
  | nil => simp at h
  | cons mb rest ih =>
    by_cases hid : mb.id = i
    · exact ⟨[], mb, rest, by simp, hid, by simp [remove_buffer_entry, hid]⟩
    · have h' : ∃ mb2 ∈ rest, mb2.id = i := by
        rcases h with ⟨mb2, hmem, hmb2⟩
        rcases List.mem_cons.mp hmem with rfl | hmem2
        · exact absurd hmb2 hid
        · exact ⟨mb2, hmem2, hmb2⟩
      obtain ⟨l1, mb2, l2, heq, hi, hrm⟩ := ih h'
      exact ⟨mb :: l1, mb2, l2, by simp [heq], hi,
        by simp [remove_buffer_entry, hid, hrm]⟩

/-- Ids for the concrete eviction scenario. -/
def idA : String := "a"

/-- Second scenario id. -/
def idB : String := "b"

/-- Third scenario id. -/
def idC : String := "c"

/-- When some registered buffer is sub-critical and every registered id is
non-empty (truthy), the eviction scan finds a sub-critical buffer of
minimal priority and `_free_low_priority_buffer` removes it. -/
theorem free_success_of_exists (m : BufferManager)
    (hids : ∀ mb ∈ m.buffers, mb.id ≠ emptyBufferId)
    (hex : ∃ mb ∈ m.buffers, mb.priority ≠ .critical) :
    ∃ mb ∈ m.buffers,
      mb.priority ≠ .critical ∧
      (∀ mb2 ∈ m.buffers, mb.priority.value ≤ mb2.priority.value) ∧
      free_low_priority_buffer m = (true, remove_buffer m mb.id) := by
  obtain ⟨mbw, hmem, hcrit⟩ := hex
  have hlt : mbw.priority.value < 4 := (priority_value_lt_four mbw.priority).mpr hcrit
  obtain ⟨hle0, hleall⟩ := find_lowest_priority_le m.buffers .critical none
  rcases find_lowest_priority_cases m.buffers .critical none with ⟨h1, h2⟩ | hcase
  · exfalso
    have := hleall mbw hmem
    rw [h1] at this
    exact absurd (lt_of_le_of_lt this hlt) (lt_irrefl _)
  · obtain ⟨mb, hmb, hid, hp, hplt⟩ := hcase
    have hmbcrit := (priority_value_lt_four mb.priority).mp hplt
    refine ⟨mb, hmb, hmbcrit, ?_, ?_⟩
    · intro mb3 hmb3
      have := hleall mb3 hmb3
      rw [hp] at this
      exact this
    · simp only [free_low_priority_buffer, hid, hp]
      rw [if_pos ⟨hids mb hmb, hmbcrit⟩]

/-- When every registered buffer is `critical`, eviction fails and changes
nothing. -/
theorem free_failure_of_all_critical (m : BufferManager)
    (hall : ∀ mb ∈ m.buffers, mb.priority = .critical) :
    free_low_priority_buffer m = (false, m) := by
  rcases find_lowest_priority_cases m.buffers .critical none with ⟨h1, h2⟩ | hcase
  · simp [free_low_priority_buffer, h2]
  · obtain ⟨mb, hmb, hid, hp, hplt⟩ := hcase
    exact absurd ((priority_value_lt_four mb.priority).mp hplt) (by simp [hall mb hmb])

/-- Whenever eviction reports success, the removed buffer is a registered
one and the result is the registry without it. -/
theorem free_result_true (m m1 : BufferManager)
    (h : free_low_priority_buffer m = (true, m1)) :
    ∃ mb ∈ m.buffers, m1 = remove_buffer m mb.id := by
  rcases find_lowest_priority_cases m.buffers .critical none with ⟨h1, h2⟩ | hcase
  · rw [show free_low_priority_buffer m = (false, m) from by
      simp [free_low_priority_buffer, h2]] at h
    simp at h
  · obtain ⟨mb, hmb, hid, hp, hplt⟩ := hcase
    simp only [free_low_priority_buffer, hid, hp] at h
    by_cases hcond : mb.id ≠ emptyBufferId ∧ mb.priority ≠ .critical
    · rw [if_pos hcond] at h
      exact ⟨mb, hmb, (Prod.mk.injEq _ _ _ _ ▸ h).2.symm⟩
    · rw [if_neg hcond] at h
      simp at h

/-- Claim C5 (amended): eviction never removes a `critical` buffer; when at
least one sub-critical buffer is registered and every registered id is
non-empty (Python's truthiness check `if lowest_buffer_id` rejects an
empty id), `_free_low_priority_buffer` removes exactly one buffer of
minimal priority and succeeds; when every registered buffer is `critical`
it fails without change.  Concretely, with `max_buffers = 2` and buffers
`(a, normal)`, `(b, low)`, creating `(c, high)` succeeds by evicting `b`,
leaving ids `[a, c]`. -/
theorem free_low_priority_buffer_spec (m : BufferManager)
    (hnodup : (m.buffers.map (fun mb => mb.id)).Nodup)
    (hids : ∀ mb ∈ m.buffers, mb.id ≠ emptyBufferId) :
    ((∃ mb ∈ m.buffers, mb.priority ≠ .critical) →
      (free_low_priority_buffer m).1 = true ∧
      ∃ l1 mb l2, m.buffers = l1 ++ mb :: l2 ∧
        mb.priority ≠ .critical ∧
        (∀ mb2 ∈ m.buffers, mb.priority.value ≤ mb2.priority.value) ∧
        (free_low_priority_buffer m).2.buffers = l1 ++ l2) ∧
    ((∀ mb ∈ m.buffers, mb.priority = .critical) →
      (free_low_priority_buffer m).1 = false ∧ (free_low_priority_buffer m).2 = m) ∧
    (let m0 : BufferManager := ⟨2, []⟩
     let s1 := create_buffer m0 idA none .normal
     let s2 := create_buffer s1.2 idB none .low
     let s3 := create_buffer s2.2 idC none .high
     s3.1 ≠ none ∧ s3.2.buffers.map (fun mb => mb.id) = [idA, idC]) := by
  refine ⟨?_, ?_, by decide⟩
  · intro hex
    obtain ⟨mb, hmb, hcrit, hmin, hfree⟩ := free_success_of_exists m hids hex
    obtain ⟨l1, mb2, l2, heq, hi, hrm⟩ :=
      remove_buffer_entry_split m.buffers mb.id ⟨mb, hmb, rfl⟩
    have hmb2mem : mb2 ∈ m.buffers := by
      rw [heq]; exact List.mem_append_right _ (List.mem_cons_self _ _)
    have hmb2eq : mb2 = mb := List.inj_on_of_nodup_map hnodup hmb2mem hmb hi
    subst hmb2eq
    refine ⟨by rw [hfree], l1, mb2, l2, heq, hcrit, hmin, ?_⟩
    rw [hfree]
    simpa [remove_buffer] using hrm
  · intro hall
    rw [free_failure_of_all_critical m hall]
    exact ⟨rfl, rfl⟩

/-- Witness for `free_low_priority_buffer_spec` on a concrete registry
containing one `normal` and one `low` buffer: eviction succeeds. -/
theorem free_low_priority_buffer_spec_witness :
    (let m : BufferManager :=
      ⟨2, [⟨idA, .normal, defaultBufferConfig⟩, ⟨idB, .low, defaultBufferConfig⟩]⟩
     (m.buffers.map (fun mb => mb.id)).Nodup ∧
       (∀ mb ∈ m.buffers, mb.id ≠ emptyBufferId) ∧
       (free_low_priority_buffer m).1 = true ∧
       (free_low_priority_buffer m).2.buffers.map (fun mb => mb.id) = [idA]) := by
  refine ⟨by decide, by decide, ?_, by decide⟩
  exact ((free_low_priority_buffer_spec _ (by decide) (by decide)).1
    ⟨⟨idB, .low, defaultBufferConfig⟩, by decide, by decide⟩).1

/-- Claim C5 counterexample: with a single registered buffer whose id is
the empty string and priority `low`, a sub-critical buffer exists, yet the
truthiness check `if lowest_buffer_id` (buffer_manager.py:389) fails on
the empty id, so `_free_low_priority_buffer` removes nothing and reports
failure — contradicting the claim that eviction then succeeds. -/
theorem free_eviction_fails_for_empty_id :
    (let m : BufferManager := ⟨2, [⟨emptyBufferId, .low, defaultBufferConfig⟩]⟩
     (m.buffers.map (fun mb => mb.id)).Nodup ∧
       (∃ mb ∈ m.buffers, mb.priority ≠ .critical) ∧
       free_low_priority_buffer m = (false, m)) := by
  refine ⟨by decide, ⟨⟨emptyBufferId, .low, defaultBufferConfig⟩, by decide, by decide⟩,
    by decide⟩

/-- Lemma: `create_buffer` below the limit: no eviction, duplicate lookup then
registration. -/
theorem create_buffer_not_full (m : BufferManager) (buffer_id : String)
    (config : Option BufferConfig) (priority : BufferPriority)
    (h : m.buffers.length < m.max_buffers) :
    create_buffer m buffer_id config priority =
      (match find_buffer m.buffers buffer_id with
       | some existing => (some existing, m)
       | none =>
         (some ⟨buffer_id, priority, config.getD (create_adaptive_config priority)⟩,
          { m with buffers :=
              m.buffers ++ [⟨buffer_id, priority, config.getD (create_adaptive_config priority)⟩] })) := by
  have h2 : ¬ (m.buffers.length ≥ m.max_buffers) := not_le.mpr h
  simp only [create_buffer, if_neg h2]

/-- Lemma: `create_buffer` at the limit after a successful eviction. -/
theorem create_buffer_full_free (m m' : BufferManager) (buffer_id : String)
    (config : Option BufferConfig) (priority : BufferPriority)
    (hfull : m.buffers.length ≥ m.max_buffers)
    (hfree : free_low_priority_buffer m = (true, m')) :
    create_buffer m buffer_id config priority =
      (match find_buffer m'.buffers buffer_id with
       | some existing => (some existing, m')
       | none =>
         (some ⟨buffer_id, priority, config.getD (create_adaptive_config priority)⟩,
          { m' with buffers :=
              m'.buffers ++ [⟨buffer_id, priority, config.getD (create_adaptive_config priority)⟩] })) := by
  simp only [create_buffer, if_pos hfull, hfree]
  simp

/-- Lemma: `create_buffer` at the limit when eviction fails refuses creation. -/
theorem create_buffer_full_stuck (m m'' : BufferManager) (buffer_id : String)
    (config : Option BufferConfig) (priority : BufferPriority)
    (hfull : m.buffers.length ≥ m.max_buffers)
    (hfree : free_low_priority_buffer m = (false, m'')) :
    create_buffer m buffer_id config priority = (none, m) := by
  simp only [create_buffer, if_pos hfull, hfree]
  simp

/-- Claim C3 (amended): starting from a registry within its limit,
`create_buffer` leaves the registry within the limit (so a non-null return
implies `len(buffers) ≤ max_buffers` afterwards); and when the registry is
full and every registered id is non-empty (so the truthiness check
`if lowest_buffer_id` cannot misfire), creation is refused (null) exactly
when every registered buffer has priority `critical`, i.e. no sub-critical
buffer exists to evict. -/
theorem create_buffer_admission (m : BufferManager) (buffer_id : String)
    (config : Option BufferConfig) (priority : BufferPriority)
    (hlen : m.buffers.length ≤ m.max_buffers) :
    (create_buffer m buffer_id config priority).2.buffers.length ≤ m.max_buffers ∧
    (m.max_buffers ≤ m.buffers.length →
      (∀ mb ∈ m.buffers, mb.id ≠ emptyBufferId) →
      ((create_buffer m buffer_id config priority).1 = none ↔
        ∀ mb ∈ m.buffers, mb.priority = .critical)) := by
  by_cases hfull : m.max_buffers ≤ m.buffers.length
  · constructor
    · rcases hfb : free_low_priority_buffer m with ⟨ok, m1⟩
      cases ok with
      | false =>
        rw [create_buffer_full_stuck m m1 buffer_id config priority hfull hfb]
        exact hlen
      | true =>
        obtain ⟨mb, hmb, hm1⟩ := free_result_true m m1 hfb
        subst hm1
        obtain ⟨l1, mb2, l2, heq, hi, hrm⟩ :=
          remove_buffer_entry_split m.buffers mb.id ⟨mb, hmb, rfl⟩
        have hlen1 : (remove_buffer m mb.id).buffers.length + 1 = m.buffers.length := by
          simp only [remove_buffer]
          rw [hrm, heq]
          simp only [List.length_append, List.length_cons]
          omega
        rw [create_buffer_full_free m _ buffer_id config priority hfull hfb]
        rcases find_buffer (remove_buffer m mb.id).buffers buffer_id with _ | mbf <;>
          · simp only [List.length_append, List.length_cons, List.length_nil]
            omega
    · intro _ hids
      by_cases hex : ∃ mb ∈ m.buffers, mb.priority ≠ .critical
      · obtain ⟨mb, hmb, hcrit, hmin, hfree⟩ := free_success_of_exists m hids hex
        rw [create_buffer_full_free m _ buffer_id config priority hfull hfree]
        constructor
        · intro hnone
          exfalso
          rcases hfind : find_buffer (remove_buffer m mb.id).buffers buffer_id with _ | mbf <;>
            · rw [hfind] at hnone
              simp at hnone
        · intro hall
          exact absurd (hall mb hmb) hcrit
      · push_neg at hex
        have hfree := free_failure_of_all_critical m hex
        rw [create_buffer_full_stuck m m buffer_id config priority hfull hfree]
        exact ⟨fun _ => hex, fun _ => rfl⟩
  · have hlt : m.buffers.length < m.max_buffers := not_le.mp hfull
    rw [create_buffer_not_full m buffer_id config priority hlt]
    constructor
    · rcases find_buffer m.buffers buffer_id with _ | mbf <;>
        · simp only [List.length_append, List.length_cons, List.length_nil]
          omega
    · intro hge
      exact absurd (lt_of_lt_of_le hlt hge) (lt_irrefl _)

/-- Witness for `create_buffer_admission`: a full registry holding one
`low` buffer admits a new buffer by eviction, staying within the limit. -/
theorem create_buffer_admission_witness :
    (let m : BufferManager := ⟨1, [⟨idA, .low, defaultBufferConfig⟩]⟩
     m.buffers.length ≤ m.max_buffers ∧
       (create_buffer m idB none .normal).2.buffers.length ≤ m.max_buffers) :=
  ⟨by decide, (create_buffer_admission _ idB none .normal (by decide)).1⟩

/-- Claim C3 counterexample: with `max_buffers = 1` and a single `critical`
buffer registered, `create_buffer` returns null even though afterwards
`len(buffers) ≤ max_buffers` still holds — refuting the claimed
"non-null iff `len(buffers) ≤ max_buffers` after return" equivalence. -/
theorem create_buffer_null_despite_within_limit :
    (let m : BufferManager := ⟨1, [⟨idA, .critical, defaultBufferConfig⟩]⟩
     (create_buffer m idB none .normal).1 = none ∧
       (create_buffer m idB none .normal).2.buffers.length ≤
         (create_buffer m idB none .normal).2.max_buffers) := by
  decide

/-- Claim C6: `create_buffer` with no explicit config synthesizes the
priority-specific configuration; for `critical` that is
`max_buffer_size = 100, target_buffer_size = 40, chunk_duration_ms = 10,
max_latency_ms = 50`, and for `low` it is
`max_buffer_size = 30, target_buffer_size = 10, chunk_duration_ms = 30,
max_latency_ms = 200`. -/
theorem create_buffer_adaptive_config (m : BufferManager) (buffer_id : String)
    (priority : BufferPriority)
    (hroom : m.buffers.length < m.max_buffers)
    (hfresh : find_buffer m.buffers buffer_id = none) :
    (create_buffer m buffer_id none priority).1 =
      some ⟨buffer_id, priority, create_adaptive_config priority⟩ ∧
    ((create_adaptive_config .critical).max_buffer_size = 100 ∧
      (create_adaptive_config .critical).target_buffer_size = 40 ∧
      (create_adaptive_config .critical).chunk_duration_ms = 10 ∧
      (create_adaptive_config .critical).max_latency_ms = 50) ∧
    ((create_adaptive_config .low).max_buffer_size = 30 ∧
      (create_adaptive_config .low).target_buffer_size = 10 ∧
      (create_adaptive_config .low).chunk_duration_ms = 30 ∧
      (create_adaptive_config .low).max_latency_ms = 200) := by
  refine ⟨?_, by decide, by decide⟩
  rw [create_buffer_not_full m buffer_id none priority hroom, hfresh]
  rfl

/-- Witness for `create_buffer_adaptive_config` on an empty manager. -/
theorem create_buffer_adaptive_config_witness :
    (let m : BufferManager := ⟨10, []⟩
     m.buffers.length < m.max_buffers ∧
       find_buffer m.buffers idA = none ∧
       (create_buffer m idA none .critical).1 =
         some ⟨idA, .critical, create_adaptive_config .critical⟩) :=
  ⟨by decide, by decide,
    (create_buffer_adaptive_config _ idA .critical (by decide) (by decide)).1⟩

/-- Embedding of `RetryStrategy` enumeration from retry_manager.py. -/
inductive RetryStrategy where
  | linear
  | exponential
  | fixed
deriving DecidableEq

/-- Embedding of `RetryConfig` dataclass (floats as rationals). -/
structure RetryConfig where
  max_attempts : Nat
  base_delay : ℚ
  max_delay : ℚ
  strategy : RetryStrategy
  backoff_factor : ℚ
  jitter : Bool
deriving DecidableEq

/-- The default `RetryConfig` field values. -/
def defaultRetryConfig : RetryConfig := ⟨3, 1, 60, .exponential, 2, true⟩

/-- Embedding of `self.retry_counts[operation_id] = v` on the dict, modelled as an
association list in insertion order. -/
def counts_insert (counts : List (String × Nat)) (k : String) (v : Nat) :
    List (String × Nat) :=
  match counts with
  | [] => [(k, v)]
  | (k1, v1) :: rest =>
    if k1 = k then (k, v) :: rest else (k1, v1) :: counts_insert rest k v

/-- Embedding of `self.retry_counts.pop(operation_id, None)` on the dict. -/
def counts_erase (counts : List (String × Nat)) (k : String) : List (String × Nat) :=
  match counts with
  | [] => []
  | (k1, v1) :: rest =>
    if k1 = k then rest else (k1, v1) :: counts_erase rest k

/-- Dict lookup on the association list. -/
def counts_lookup (counts : List (String × Nat)) (k : String) : Option Nat :=
  match counts with
  | [] => none
  | (k1, v1) :: rest => if k1 = k then some v1 else counts_lookup rest k

/-- Embedding of `RetryManager._calculate_delay`: the per-strategy base formula, capped
at `max_delay`, then multiplied by the sampled jitter factor when `jitter`
is enabled.  The randomly drawn `random.uniform(0.8, 1.2)` value is passed
in explicitly as `jitter_factor`. -/
def calculate_delay (attempt : Nat) (config : RetryConfig) (jitter_factor : ℚ) : ℚ :=
  let delay :=
    match config.strategy with
    | .fixed => config.base_delay
    | .linear => config.base_delay * ((attempt : ℚ) + 1)
    | .exponential => config.base_delay * config.backoff_factor ^ attempt
  let capped := min delay config.max_delay
  if config.jitter then capped * jitter_factor else capped

/-- The observable outcome of one `retry_operation` call: the returned
value or propagated final error (`none` standing for the degenerate
`raise None` when `max_attempts = 0`), the delays slept between attempts,
the number of times the operation was invoked, and the final
`retry_counts` dict. -/
structure RetryOutcome (E A : Type) where
  result : Except (Option E) A
  delays : List ℚ
  invocations : Nat
  retry_counts : List (String × Nat)

/-- The attempt loop of `RetryManager.retry_operation`, driven by the
predetermined outcome of each attempt (`outcomes i` is what the operation
does on 0-indexed attempt `i`) and the sampled jitter factors.  `remaining`
counts the attempts still allowed; a sleep happens only when a failed
attempt is not the last one. -/
def retry_from {E A : Type} (config : RetryConfig) (outcomes : Nat → Except E A)
    (jitters : Nat → ℚ) (operation_id : String) :
    Nat → Nat → Option E → List (String × Nat) → RetryOutcome E A
  | _, 0, last_exception, retry_counts =>
    ⟨.error last_exception, [], 0, counts_erase retry_counts operation_id⟩
  | attempt, remaining + 1, _, retry_counts =>
    let counts1 := counts_insert retry_counts operation_id attempt
    match outcomes attempt with
    | .ok result => ⟨.ok result, [], 1, counts_erase counts1 operation_id⟩
    | .error e =>
      let rest :=
        retry_from config outcomes jitters operation_id (attempt + 1) remaining (some e) counts1
      let delays :=
        if 0 < remaining then
          calculate_delay attempt config (jitters attempt) :: rest.delays
        else
          rest.delays
      ⟨rest.result, delays, rest.invocations + 1, rest.retry_counts⟩

/-- Embedding of `RetryManager.retry_operation`: run the loop from attempt 0 with
`max_attempts` attempts allowed. -/
def retry_operation {E A : Type} (config : RetryConfig) (outcomes : Nat → Except E A)
    (jitters : Nat → ℚ) (operation_id : String) (retry_counts : List (String × Nat)) :
    RetryOutcome E A :=
  retry_from config outcomes jitters operation_id 0 config.max_attempts none retry_counts

/-- Keys after a dict insert: an old key or the inserted one. -/
theorem counts_insert_keys_subset (c : List (String × Nat)) (k : String) (v : Nat) :
    ∀ x ∈ (counts_insert c k v).map Prod.fst, x ∈ c.map Prod.fst ∨ x = k := by
  induction c with
  | nil =>
    intro x hx
    simp [counts_insert] at hx
    exact Or.inr hx
  | cons kv rest ih =>
    obtain ⟨k1, v1⟩ := kv
    intro x hx
    by_cases h : k1 = k
    · simp only [counts_insert, if_pos h, List.map_cons, List.mem_cons] at hx
      rcases hx with rfl | hx
      · exact Or.inr rfl
      · exact Or.inl (by simp only [List.map_cons, List.mem_cons]; exact Or.inr hx)
    · simp only [counts_insert, if_neg h, List.map_cons, List.mem_cons] at hx
      rcases hx with rfl | hx
      · exact Or.inl (by simp)
      · rcases ih x hx with h2 | h2
        · exact Or.inl (by simp only [List.map_cons, List.mem_cons]; exact Or.inr h2)
        · exact Or.inr h2

/-- A dict insert preserves key uniqueness. -/
theorem counts_insert_nodup (c : List (String × Nat)) (k : String) (v : Nat)
    (h : (c.map Prod.fst).Nodup) :
    ((counts_insert c k v).map Prod.fst).Nodup := by
  induction c with
  | nil => simp [counts_insert]
  | cons kv rest ih =>
    obtain ⟨k1, v1⟩ := kv
    simp only [List.map_cons, List.nodup_cons] at h
    obtain ⟨hk1, hrest⟩ := h
    by_cases heq : k1 = k
    · subst heq
      rw [show counts_insert ((k1, v1) :: rest) k1 v = (k1, v) :: rest from by
        simp [counts_insert]]
      simp only [List.map_cons, List.nodup_cons]
      exact ⟨hk1, hrest⟩
    · simp only [counts_insert, if_neg heq, List.map_cons, List.nodup_cons]
      refine ⟨?_, ih hrest⟩
      intro hmem
      rcases counts_insert_keys_subset rest k v k1 hmem with h2 | h2
      · exact hk1 h2
      · exact heq h2

/-- Lookup of an absent key fails. -/
theorem counts_lookup_eq_none (c : List (String × Nat)) (k : String)
    (h : k ∉ c.map Prod.fst) :
    counts_lookup c k = none := by
  induction c with
  | nil => rfl
  | cons kv rest ih =>
    obtain ⟨k1, v1⟩ := kv
    simp only [List.map_cons, List.mem_cons] at h
    push_neg at h
    obtain ⟨hne, hnot⟩ := h
    simp only [counts_lookup]
    rw [if_neg (fun he => hne he.symm)]
    exact ih hnot

/-- After deleting a key from a dict with unique keys, looking it up
fails. -/
theorem counts_lookup_erase_self (c : List (String × Nat)) (k : String)
    (h : (c.map Prod.fst).Nodup) :
    counts_lookup (counts_erase c k) k = none := by
  induction c with
  | nil => rfl
  | cons kv rest ih =>
    obtain ⟨k1, v1⟩ := kv
    simp only [List.map_cons, List.nodup_cons] at h
    obtain ⟨hk1, hrest⟩ := h
    by_cases heq : k1 = k
    · subst heq
      simp only [counts_erase, if_pos rfl]
      exact counts_lookup_eq_none rest k1 hk1
    · simp only [counts_erase, if_neg heq, counts_lookup, if_neg heq]
      exact ih hrest

/-- The retry loop makes at most `remaining` invocations. -/
theorem retry_from_invocations {E A : Type} (config : RetryConfig)
    (outcomes : Nat → Except E A) (jitters : Nat → ℚ) (operation_id : String) :
    ∀ (remaining attempt : Nat) (last : Option E) (counts : List (String × Nat)),
      (retry_from config outcomes jitters operation_id attempt remaining last
        counts).invocations ≤ remaining := by
  intro remaining
  induction remaining with
  | zero => intro attempt last counts; exact le_refl 0
  | succ r ih =>
    intro attempt last counts
    cases houtcome : outcomes attempt with
    | ok a => simp only [retry_from, houtcome]; omega
    | error e =>
      simp only [retry_from, houtcome]
      have := ih (attempt + 1) (some e) (counts_insert counts operation_id attempt)
      omega

/-- The retry loop always clears the operation's retry counter. -/
theorem retry_from_counts_cleared {E A : Type} (config : RetryConfig)
    (outcomes : Nat → Except E A) (jitters : Nat → ℚ) (operation_id : String) :
    ∀ (remaining attempt : Nat) (last : Option E) (counts : List (String × Nat)),
      (counts.map Prod.fst).Nodup →
      counts_lookup
        ((retry_from config outcomes jitters operation_id attempt remaining last
          counts).retry_counts) operation_id = none := by
  intro remaining
  induction remaining with
  | zero =>
    intro attempt last counts h
    exact counts_lookup_erase_self counts operation_id h
  | succ r ih =>
    intro attempt last counts h
    cases houtcome : outcomes attempt with
    | ok a =>
      simp only [retry_from, houtcome]
      exact counts_lookup_erase_self _ _ (counts_insert_nodup counts operation_id attempt h)
    | error e =>
      simp only [retry_from, houtcome]
      exact ih (attempt + 1) (some e) _ (counts_insert_nodup counts operation_id attempt h)

/-- Every slept delay is the `_calculate_delay` value of its attempt
index (offset by the loop's starting attempt). -/
theorem retry_from_delays {E A : Type} (config : RetryConfig)
    (outcomes : Nat → Except E A) (jitters : Nat → ℚ) (operation_id : String) :
    ∀ (remaining attempt : Nat) (last : Option E) (counts : List (String × Nat))
      (i : Nat),
      i < (retry_from config outcomes jitters operation_id attempt remaining last
        counts).delays.length →
      (retry_from config outcomes jitters operation_id attempt remaining last
        counts).delays.getD i 0 =
        calculate_delay (attempt + i) config (jitters (attempt + i)) := by
  intro remaining
  induction remaining with
  | zero => intro attempt last counts i h; exact absurd h (by simp [retry_from])
  | succ r ih =>
    intro attempt last counts i h
    cases houtcome : outcomes attempt with
    | ok a =>
      rw [show (retry_from config outcomes jitters operation_id attempt (r+1) last
        counts).delays = [] from by simp only [retry_from, houtcome]] at h
      exact absurd h (by simp)
    | error e =>
      cases r with
      | zero =>
        rw [show (retry_from config outcomes jitters operation_id attempt 1 last
          counts).delays = [] from by simp [retry_from, houtcome]] at h
        exact absurd h (by simp)
      | succ r2 =>
        have hd : (retry_from config outcomes jitters operation_id attempt (r2+1+1) last
            counts).delays =
            calculate_delay attempt config (jitters attempt) ::
              (retry_from config outcomes jitters operation_id (attempt + 1) (r2+1) (some e)
                (counts_insert counts operation_id attempt)).delays := by
          simp only [retry_from, houtcome]
          rw [if_pos (Nat.succ_pos r2)]
        rw [hd] at h ⊢
        cases i with
        | zero => simp
        | succ i2 =>
          simp only [List.getD_cons_succ]
          have h2 : i2 < (retry_from config outcomes jitters operation_id (attempt + 1)
              (r2+1) (some e) (counts_insert counts operation_id attempt)).delays.length := by
            simpa using h
          have hh := ih (attempt + 1) (some e) (counts_insert counts operation_id attempt) i2 h2
          rw [hh, show attempt + 1 + i2 = attempt + (i2 + 1) from by omega]

/-- When every attempt fails, the loop propagates the error of the last
attempt it made. -/
theorem retry_from_all_fail {E A : Type} (config : RetryConfig)
    (outcomes : Nat → Except E A) (jitters : Nat → ℚ) (operation_id : String)
    (errs : Nat → E) (houtcomes : ∀ i, outcomes i = .error (errs i)) :
    ∀ (r attempt : Nat) (last : Option E) (counts : List (String × Nat)),
      (retry_from config outcomes jitters operation_id attempt (r+1) last counts).result =
        .error (some (errs (attempt + r))) := by
  intro r
  induction r with
  | zero =>
    intro attempt last counts
    simp only [retry_from, houtcomes attempt]
    rw [Nat.add_zero]
  | succ r2 ih =>
    intro attempt last counts
    simp only [retry_from, houtcomes attempt]
    have := ih (attempt + 1) (some (errs attempt)) (counts_insert counts operation_id attempt)
    rw [show attempt + 1 + r2 = attempt + (r2 + 1) from by omega] at this
    exact this

/-- Bounds for the cap-then-jitter step: any per-strategy value at least
`base_delay`, capped at `max_delay` and jittered by a factor in
[4/5, 6/5], lands in [base_delay × 4/5, max_delay × 6/5]. -/
theorem capped_jitter_bounds (bd md d0 j : ℚ) (ji : Bool) (hbd : 0 ≤ bd)
    (hmd : bd ≤ md) (hd0 : bd ≤ d0) (hj1 : 4/5 ≤ j) (hj2 : j ≤ 6/5) :
    bd * (4/5) ≤ (if ji = true then min d0 md * j else min d0 md) ∧
    (if ji = true then min d0 md * j else min d0 md) ≤ md * (6/5) := by
  have hcap1 : bd ≤ min d0 md := le_min hd0 hmd
  have hcap0 : (0 : ℚ) ≤ min d0 md := hbd.trans hcap1
  have hcap2 : min d0 md ≤ md := min_le_right _ _
  have hj0 : (0 : ℚ) ≤ j := le_trans (by norm_num) hj1
  have hmd0 : (0 : ℚ) ≤ md := hbd.trans hmd
  cases ji with
  | false =>
    simp only [Bool.false_eq_true, if_false]
    constructor
    · calc bd * (4/5) ≤ bd * 1 := by
            exact mul_le_mul_of_nonneg_left (by norm_num) hbd
        _ = bd := mul_one bd
        _ ≤ min d0 md := hcap1
    · calc min d0 md ≤ md := hcap2
        _ ≤ md * (6/5) := le_mul_of_one_le_right hmd0 (by norm_num)
  | true =>
    simp only [if_true]
    constructor
    · exact mul_le_mul hcap1 hj1 (by norm_num) hcap0
    · exact mul_le_mul hcap2 hj2 hj0 hmd0

/-- For a sane configuration (`0 ≤ base_delay ≤ max_delay`,
`backoff_factor ≥ 1`) and a jitter factor in [4/5, 6/5], every computed
delay lies within [base_delay × 4/5, max_delay × 6/5]. -/
theorem calculate_delay_bounds (attempt : Nat) (config : RetryConfig) (j : ℚ)
    (hbase : 0 ≤ config.base_delay) (hmax : config.base_delay ≤ config.max_delay)
    (hback : 1 ≤ config.backoff_factor) (hj1 : 4/5 ≤ j) (hj2 : j ≤ 6/5) :
    config.base_delay * (4/5) ≤ calculate_delay attempt config j ∧
    calculate_delay attempt config j ≤ config.max_delay * (6/5) := by
  obtain ⟨ma, bd, md, st, bf, ji⟩ := config
  simp only [calculate_delay]
  cases st with
  | fixed =>
    exact capped_jitter_bounds bd md bd j ji hbase hmax (le_refl bd) hj1 hj2
  | linear =>
    refine capped_jitter_bounds bd md _ j ji hbase hmax ?_ hj1 hj2
    refine le_mul_of_one_le_right hbase ?_
    have h0 : (0 : ℚ) ≤ (attempt : ℚ) := Nat.cast_nonneg attempt
    linarith
  | exponential =>
    exact capped_jitter_bounds bd md _ j ji hbase hmax
      (le_mul_of_one_le_right hbase (one_le_pow₀ hback)) hj1 hj2

/-- Claim C4 (amended): for a `RetryConfig` with `0 ≤ base_delay ≤
max_delay` and `backoff_factor ≥ 1`, the retry driver invokes the
operation at most `max_attempts` times; the delay slept after 0-indexed
attempt `i` is exactly `_calculate_delay i` — `min(f(i), max_delay)` times
the sampled jitter factor — so with factors in [0.8, 1.2] every delay lies
within [base_delay × 0.8, max_delay × 1.2]; the identifier's retry counter
is cleared on success and on final failure; and on final failure the last
attempt's error is propagated. -/
theorem retry_driver_spec {E A : Type} (config : RetryConfig) (outcomes : Nat → Except E A)
    (jitters : Nat → ℚ) (operation_id : String) (retry_counts : List (String × Nat))
    (hbase : 0 ≤ config.base_delay) (hmax : config.base_delay ≤ config.max_delay)
    (hback : 1 ≤ config.backoff_factor)
    (hj : ∀ i, 4/5 ≤ jitters i ∧ jitters i ≤ 6/5)
    (hnodup : (retry_counts.map Prod.fst).Nodup) :
    (retry_operation config outcomes jitters operation_id retry_counts).invocations ≤
      config.max_attempts ∧
    (∀ i, i < (retry_operation config outcomes jitters operation_id retry_counts).delays.length →
      (retry_operation config outcomes jitters operation_id retry_counts).delays.getD i 0 =
        calculate_delay i config (jitters i)) ∧
    (∀ d ∈ (retry_operation config outcomes jitters operation_id retry_counts).delays,
      config.base_delay * (4/5) ≤ d ∧ d ≤ config.max_delay * (6/5)) ∧
    counts_lookup
      (retry_operation config outcomes jitters operation_id retry_counts).retry_counts
      operation_id = none ∧
    (∀ (errs : Nat → E) (n : Nat), config.max_attempts = n + 1 →
      (∀ i, outcomes i = .error (errs i)) →
      (retry_operation config outcomes jitters operation_id retry_counts).result =
        .error (some (errs n))) := by
  have hdel : ∀ i, i < (retry_operation config outcomes jitters operation_id
      retry_counts).delays.length →
      (retry_operation config outcomes jitters operation_id retry_counts).delays.getD i 0 =
        calculate_delay i config (jitters i) := by
    intro i h
    have := retry_from_delays config outcomes jitters operation_id config.max_attempts 0
      none retry_counts i h
    simpa using this
  refine ⟨retry_from_invocations config outcomes jitters operation_id config.max_attempts 0
    none retry_counts, hdel, ?_,
    retry_from_counts_cleared config outcomes jitters operation_id config.max_attempts 0
      none retry_counts hnodup, ?_⟩
  · intro d hd
    obtain ⟨i, hi, hget⟩ := List.mem_iff_getElem.mp hd
    have hgd := List.getD_eq_getElem
      (retry_operation config outcomes jitters operation_id retry_counts).delays 0 hi
    have heq := hdel i hi
    rw [hgd, hget] at heq
    rw [heq]
    exact calculate_delay_bounds i config (jitters i) hbase hmax hback (hj i).1 (hj i).2
  · intro errs n hn hfail
    have := retry_from_all_fail config outcomes jitters operation_id errs hfail n 0
      none retry_counts
    rw [retry_operation, hn]
    simpa using this

/-- An operation identifier for concrete retry runs. -/
def opId : String := "op"

/-- Witness for `retry_driver_spec`: the default config, an operation that
always fails, unit jitter factors and an empty counts dict. -/
theorem retry_driver_spec_witness :
    (let outcomes : Nat → Except Nat Nat := fun _ => .error 0
     let jitters : Nat → ℚ := fun _ => 1
     (retry_operation defaultRetryConfig outcomes jitters opId []).invocations ≤ 3 ∧
       counts_lookup
         (retry_operation defaultRetryConfig outcomes jitters opId []).retry_counts
         opId = none ∧
       (retry_operation defaultRetryConfig outcomes jitters opId []).result =
         .error (some 0)) := by
  have h := retry_driver_spec defaultRetryConfig
    (fun _ => (Except.error 0 : Except Nat Nat)) (fun _ => 1) opId []
    (by norm_num [defaultRetryConfig]) (by norm_num [defaultRetryConfig])
    (by norm_num [defaultRetryConfig]) (fun i => ⟨by norm_num, by norm_num⟩)
    (by simp)
  exact ⟨h.1, h.2.2.2.1, h.2.2.2.2 (fun _ => 0) 2 rfl (fun i => rfl)⟩

/-- Claim C4 counterexample: `RetryConfig` does not constrain
`backoff_factor`; with `backoff_factor = 1/2` (and `base_delay = 1 ≤ 60 =
max_delay`) the exponential delay of attempt 1 under an admissible jitter
factor of 1 is 1/2, strictly below the claimed lower bound
`base_delay × 0.8`. -/
theorem retry_delay_below_claimed_bound :
    (let config : RetryConfig := ⟨3, 1, 60, .exponential, 1/2, true⟩
     config.base_delay ≤ config.max_delay ∧
       (4/5 : ℚ) ≤ 1 ∧ (1 : ℚ) ≤ 6/5 ∧
       calculate_delay 1 config 1 < config.base_delay * (4/5)) := by
  refine ⟨by norm_num, by norm_num, by norm_num, ?_⟩
  norm_num [calculate_delay, min_def]

/-- Embedding of `HandlerInfo` from event_system.py: the handler function is identified
by a numeric id `func` plus a `raises` flag describing whether invoking it
raises; `filters` is the optional filter's `check` predicate (`BaseFilter`
is an open class, so an arbitrary boolean predicate on updates), and
`priority` the handler priority. -/
structure HandlerInfo (α : Type) where
  func : Nat
  raises : Bool
  filters : Option (α → Bool)
  priority : Int

/-- The insertion loop of `EventHandlerSystem.add_handler`: place the new
handler before the first existing handler of strictly smaller priority,
else append. -/
def add_handler {α : Type} : List (HandlerInfo α) → HandlerInfo α → List (HandlerInfo α)
  | [], handler_info => [handler_info]
  | existing :: rest, handler_info =>
    if handler_info.priority > existing.priority then
      handler_info :: existing :: rest
    else
      existing :: add_handler rest handler_info

/-- The filter gate in `_propagate`: a handler matches when its filter is
absent or its `check` returns true. -/
def handler_matches {α : Type} (handler_info : HandlerInfo α) (update : α) : Bool :=
  match handler_info.filters with
  | some f => f update
  | none => true

/-- Calling the handler: raises or returns normally per its `raises`
flag. -/
def invoke_handler {α : Type} (handler_info : HandlerInfo α) (_update : α) :
    Except Unit Unit :=
  if handler_info.raises then .error () else .ok ()

/-- Embedding of `EventHandlerSystem._propagate`: walk the handler list; skip handlers
whose filter rejects the update; invoke the rest, logging and swallowing
any exception so iteration always continues.  Returns the ids of the
invoked handlers in invocation order. -/
def propagate {α : Type} : List (HandlerInfo α) → α → List Nat
  | [], _ => []
  | handler_info :: rest, update =>
    if handler_matches handler_info update then
      match invoke_handler handler_info update with
      | .ok _ => handler_info.func :: propagate rest update
      | .error _ => handler_info.func :: propagate rest update
    else
      propagate rest update

/-- One `_propagate` step: the handler contributes its invocation exactly
when it matches, whether or not it raises. -/
theorem propagate_cons {α : Type} (handler_info : HandlerInfo α)
    (rest : List (HandlerInfo α)) (update : α) :
    propagate (handler_info :: rest) update =
      if handler_matches handler_info update then
        handler_info.func :: propagate rest update
      else
        propagate rest update := by
  simp only [propagate]
  split_ifs with hm
  · rcases hi : invoke_handler handler_info update with e | a <;> rfl

  · rfl

/-- The invoked handlers are exactly the matching ones, in list order. -/
theorem propagate_eq_filter {α : Type} (handlers : List (HandlerInfo α)) (update : α) :
    propagate handlers update =
      (handlers.filter (fun h => handler_matches h update)).map (fun h => h.func) := by
  induction handlers with
  | nil => rfl
  | cons handler_info rest ih =>
    rw [propagate_cons]
    by_cases hm : handler_matches handler_info update
    · rw [if_pos hm]
      simp [List.filter_cons, hm, ih]
    · rw [if_neg hm]
      simp [List.filter_cons, hm, ih]

/-- Raising handlers do not change which handlers get invoked: the
propagation result is independent of every `raises` flag. -/
theorem propagate_raises_independent {α : Type} (handlers : List (HandlerInfo α))
    (update : α) (g : HandlerInfo α → Bool) :
    propagate (handlers.map (fun h => { h with raises := g h })) update =
      propagate handlers update := by
  induction handlers with
  | nil => rfl
  | cons handler_info rest ih =>
    rw [List.map_cons, propagate_cons, propagate_cons]
    have hm : handler_matches { handler_info with raises := g handler_info } update =
        handler_matches handler_info update := rfl
    rw [hm, ih]

/-- Inserting a handler permutes cons. -/
theorem add_handler_perm {α : Type} (handlers : List (HandlerInfo α))
    (handler_info : HandlerInfo α) :
    (add_handler handlers handler_info).Perm (handler_info :: handlers) := by
  induction handlers with
  | nil => exact List.Perm.refl _
  | cons existing rest ih =>
    simp only [add_handler]
    split_ifs with hp
    · exact List.Perm.refl _
    · exact (ih.cons existing).trans (List.Perm.swap handler_info existing rest)

/-- Insertion keeps the handler list sorted by descending priority. -/
theorem add_handler_sorted {α : Type} (handlers : List (HandlerInfo α))
    (handler_info : HandlerInfo α)
    (hsort : List.Sorted (fun a b : HandlerInfo α => b.priority ≤ a.priority) handlers) :
    List.Sorted (fun a b : HandlerInfo α => b.priority ≤ a.priority)
      (add_handler handlers handler_info) := by
  induction handlers with
  | nil => simp [add_handler]
  | cons existing rest ih =>
    rw [List.sorted_cons] at hsort
    obtain ⟨he, hrest⟩ := hsort
    simp only [add_handler]
    split_ifs with hp
    · refine List.sorted_cons.mpr ⟨?_, List.sorted_cons.mpr ⟨he, hrest⟩⟩
      intro b hb
      rcases List.mem_cons.mp hb with rfl | hb2
      · exact le_of_lt hp
      · exact (he b hb2).trans (le_of_lt hp)
    · refine List.sorted_cons.mpr ⟨?_, ih hrest⟩
      intro b hb
      have hmem := (add_handler_perm rest handler_info).mem_iff.mp hb
      rcases List.mem_cons.mp hmem with rfl | hb2
      · exact not_lt.mp hp
      · exact he b hb2

/-- Inserting into a descending-sorted handler list places the newcomer
after all handlers of its own priority: the per-priority sublists are
extended on the right (stability). -/
theorem add_handler_filter_eq {α : Type} (handlers : List (HandlerInfo α))
    (handler_info : HandlerInfo α) (p : Int)
    (hsort : List.Sorted (fun a b : HandlerInfo α => b.priority ≤ a.priority) handlers) :
    (add_handler handlers handler_info).filter (fun x => decide (x.priority = p)) =
      if handler_info.priority = p then
        handlers.filter (fun x => decide (x.priority = p)) ++ [handler_info]
      else
        handlers.filter (fun x => decide (x.priority = p)) := by
  induction handlers with
  | nil =>
    simp only [add_handler, List.filter_nil, List.nil_append]
    split_ifs with hp <;> simp [hp]
  | cons existing rest ih =>
    rw [List.sorted_cons] at hsort
    obtain ⟨he, hrest⟩ := hsort
    simp only [add_handler]
    by_cases hgt : handler_info.priority > existing.priority
    · rw [if_pos hgt]
      by_cases hp : handler_info.priority = p
      · have hnil : (existing :: rest).filter (fun x => decide (x.priority = p)) = [] := by
          refine List.filter_eq_nil_iff.mpr ?_
          intro x hx
          rcases List.mem_cons.mp hx with rfl | hx2
          · simp only [decide_eq_true_eq]
            omega
          · have := he x hx2
            simp only [decide_eq_true_eq]
            omega
        rw [if_pos hp, List.filter_cons]
        simp only [hnil]
        simp [hp]
      · rw [if_neg hp, List.filter_cons]
        simp [hp]
    · rw [if_neg hgt, List.filter_cons, ih hrest]
      by_cases hp2 : existing.priority = p <;> by_cases hp : handler_info.priority = p <;>
        simp [List.filter_cons, hp2, hp]

/-- Folding registrations through `add_handler` keeps the list sorted. -/
theorem foldl_add_handler_sorted {α : Type} (regs : List (HandlerInfo α))
    (acc : List (HandlerInfo α))
    (hacc : List.Sorted (fun a b : HandlerInfo α => b.priority ≤ a.priority) acc) :
    List.Sorted (fun a b : HandlerInfo α => b.priority ≤ a.priority)
      (regs.foldl add_handler acc) := by
  induction regs generalizing acc with
  | nil => exact hacc
  | cons rg rest ih => exact ih _ (add_handler_sorted acc rg hacc)

/-- Folding registrations preserves each per-priority sublist in
registration order. -/
theorem foldl_add_handler_filter {α : Type} (regs : List (HandlerInfo α))
    (acc : List (HandlerInfo α))
    (hacc : List.Sorted (fun a b : HandlerInfo α => b.priority ≤ a.priority) acc)
    (p : Int) :
    (regs.foldl add_handler acc).filter (fun x => decide (x.priority = p)) =
      acc.filter (fun x => decide (x.priority = p)) ++
        regs.filter (fun x => decide (x.priority = p)) := by
  induction regs generalizing acc with
  | nil => simp
  | cons rg rest ih =>
    rw [List.foldl_cons, ih _ (add_handler_sorted acc rg hacc),
      add_handler_filter_eq acc rg p hacc]
    by_cases hp : rg.priority = p
    · rw [if_pos hp]
      simp [List.filter_cons, hp]
    · rw [if_neg hp]
      simp [List.filter_cons, hp]

/-- Claim C8: after any sequence of `add_handler` registrations, the
handler list is sorted by descending priority and stable (each priority
class keeps registration order); dispatching invokes exactly the handlers
whose filter is absent or accepts the update, in that list order; and the
set of invoked handlers is independent of which handlers raise. -/
theorem event_dispatch_spec {α : Type} (regs : List (HandlerInfo α)) (update : α) :
    (propagate (regs.foldl add_handler []) update =
      ((regs.foldl add_handler []).filter
        (fun h => handler_matches h update)).map (fun h => h.func)) ∧
    List.Sorted (fun a b : HandlerInfo α => b.priority ≤ a.priority)
      (regs.foldl add_handler []) ∧
    (∀ p : Int, (regs.foldl add_handler []).filter (fun x => decide (x.priority = p)) =
      regs.filter (fun x => decide (x.priority = p))) ∧
    (∀ g : HandlerInfo α → Bool,
      propagate ((regs.foldl add_handler []).map (fun h => { h with raises := g h })) update =
        propagate (regs.foldl add_handler []) update) := by
  refine ⟨propagate_eq_filter _ update, foldl_add_handler_sorted regs [] (by simp), ?_, ?_⟩
  · intro p
    have := foldl_add_handler_filter regs [] (by simp) p
    simpa using this
  · intro g
    exact propagate_raises_independent _ update g

/-- One active call's session dict from stream_methods.py; only the
`volume` key (absent until first set) is relevant to the volume methods. -/
structure CallSession where
  volume : Option ℚ
deriving DecidableEq

/-- The `_active_calls` dict of the client's stream methods. -/
structure StreamMethodsState where
  active_calls : List (Int × CallSession)
deriving DecidableEq

/-- The `ValueError` message raised by `set_volume` for an out-of-range
volume. -/
def volumeError : String := "Volume must be between 0.0 and 1.0"

/-- Embedding of `chat_id in self._active_calls` / `self._active_calls[chat_id]`. -/
def lookup_call : List (Int × CallSession) → Int → Option CallSession
  | [], _ => none
  | (cid, s) :: rest, chat_id =>
    if cid = chat_id then some s else lookup_call rest chat_id

/-- In-place mutation of the session stored under a chat id. -/
def update_call : List (Int × CallSession) → Int → CallSession → List (Int × CallSession)
  | [], _, _ => []
  | (cid, s) :: rest, chat_id, sess =>
    if cid = chat_id then (cid, sess) :: rest else (cid, s) :: update_call rest chat_id sess

/-- Embedding of `StreamMethods.set_volume`: raise `ValueError` unless
`0.0 <= volume <= 1.0`; return `False` for an inactive chat; otherwise
store the volume in the session and return `True`. -/
def set_volume (st : StreamMethodsState) (chat_id : Int) (volume : ℚ) :
    Except String (Bool × StreamMethodsState) :=
  if ¬ (0 ≤ volume ∧ volume ≤ 1) then
    .error volumeError
  else
    match lookup_call st.active_calls chat_id with
    | none => .ok (false, st)
    | some call_session =>
      .ok (true,
        ⟨update_call st.active_calls chat_id { call_session with volume := some volume }⟩)

/-- Clamping to an interval (the spec's `clamp(v, 0, 1)`). -/
def clamp (v lo hi : ℚ) : ℚ := max lo (min hi v)

/-- Updating a present key makes subsequent lookups return the new
session. -/
theorem lookup_update_call (l : List (Int × CallSession)) (chat_id : Int)
    (sess s0 : CallSession) (h : lookup_call l chat_id = some s0) :
    lookup_call (update_call l chat_id sess) chat_id = some sess := by
  induction l with
  | nil => simp [lookup_call] at h
  | cons cs rest ih =>
    obtain ⟨cid, s⟩ := cs
    by_cases hc : cid = chat_id
    · simp [update_call, lookup_call, hc]
    · simp only [update_call, if_neg hc, lookup_call]
      refine ih ?_
      simpa [lookup_call, hc] using h

/-- Claim C9 (amended): for an active call and `v` within [0, 1],
`set_volume` succeeds and the stored volume reads back as
`clamp(v, 0, 1)` (which equals `v` there); for `v` outside [0, 1] the
call raises `ValueError` instead of clamping. -/
theorem set_volume_spec (st : StreamMethodsState) (chat_id : Int) (v : ℚ)
    (sess : CallSession)
    (hactive : lookup_call st.active_calls chat_id = some sess) :
    ((0 ≤ v ∧ v ≤ 1) →
      set_volume st chat_id v =
        .ok (true,
          ⟨update_call st.active_calls chat_id { sess with volume := some (clamp v 0 1) }⟩) ∧
      lookup_call
        (update_call st.active_calls chat_id { sess with volume := some (clamp v 0 1) })
        chat_id = some { sess with volume := some (clamp v 0 1) }) ∧
    (¬ (0 ≤ v ∧ v ≤ 1) → set_volume st chat_id v = .error volumeError) := by
  constructor
  · intro hrange
    have hclamp : clamp v 0 1 = v := by
      simp only [clamp]
      rw [min_eq_right hrange.2, max_eq_right hrange.1]
    constructor
    · rw [hclamp]
      simp only [set_volume, if_neg (not_not_intro hrange), hactive]
    · exact lookup_update_call st.active_calls chat_id _ sess hactive
  · intro hout
    simp only [set_volume, if_pos hout]

/-- Witness for `set_volume_spec`: chat 5 active with volume 1/2, setting
volume 1 stores `clamp(1, 0, 1)`. -/
theorem set_volume_spec_witness :
    (let st : StreamMethodsState := ⟨[(5, ⟨some (1/2)⟩)]⟩
     lookup_call st.active_calls 5 = some ⟨some (1/2)⟩ ∧
       ((0 : ℚ) ≤ 1 ∧ (1 : ℚ) ≤ 1) ∧
       set_volume st 5 1 =
         .ok (true, ⟨update_call st.active_calls 5 ⟨some (clamp 1 0 1)⟩⟩)) := by
  refine ⟨rfl, ⟨by norm_num, le_refl 1⟩, ?_⟩
  exact ((set_volume_spec ⟨[(5, ⟨some (1/2)⟩)]⟩ 5 1 ⟨some (1/2)⟩ (by rfl)).1
    ⟨by norm_num, le_refl 1⟩).1

/-- Claim C9 counterexample: `set_volume` with the out-of-range volume 2
on an active call raises `ValueError` instead of storing
`clamp(2, 0, 1) = 1`. -/
theorem set_volume_rejects_out_of_range :
    (let st : StreamMethodsState := ⟨[(5, ⟨some (1/2)⟩)]⟩
     clamp 2 0 1 = 1 ∧ set_volume st 5 2 = .error volumeError) := by
  constructor
  · simp [clamp]
  · rfl

/-- Embedding of `CacheEntry` dataclass from cache_manager.py (data type generic). -/
structure CacheEntry (α : Type) where
  data : α
  timestamp : ℚ
  ttl : ℚ
  access_count : Nat
deriving DecidableEq

/-- Embedding of `CacheEntry.is_expired`: the entry's age at time `now` exceeds its
ttl. -/
def CacheEntry.is_expired {α : Type} (entry : CacheEntry α) (now : ℚ) : Bool :=
  decide (now - entry.timestamp > entry.ttl)

/-- Embedding of `CacheManager` state relevant to `get`: the main cache dict and the
hit/miss counters. -/
structure CacheManager (α : Type) where
  cache : List (String × CacheEntry α)
  hits : Nat
  misses : Nat
deriving DecidableEq

/-- Dict lookup on the cache. -/
def cache_dict_lookup {α : Type} : List (String × CacheEntry α) → String →
    Option (CacheEntry α)
  | [], _ => none
  | (k1, e1) :: rest, key => if k1 = key then some e1 else cache_dict_lookup rest key

/-- Embedding of `del self.cache[key]`. -/
def cache_dict_erase {α : Type} : List (String × CacheEntry α) → String →
    List (String × CacheEntry α)
  | [], _ => []
  | (k1, e1) :: rest, key =>
    if k1 = key then rest else (k1, e1) :: cache_dict_erase rest key

/-- In-place mutation of a stored entry (`entry.access()`). -/
def cache_dict_update {α : Type} : List (String × CacheEntry α) → String → CacheEntry α →
    List (String × CacheEntry α)
  | [], _, _ => []
  | (k1, e1) :: rest, key, entry =>
    if k1 = key then (k1, entry) :: rest else (k1, e1) :: cache_dict_update rest key entry

/-- Embedding of `CacheManager.get`: a missing key counts a miss and returns the
default; an expired entry is deleted, counts a miss and returns the
default; a live entry counts a hit, bumps its `access_count` and returns
its data.  `now` is the current wall-clock time. -/
def cache_get {α : Type} (m : CacheManager α) (now : ℚ) (key : String) (default : α) :
    α × CacheManager α :=
  match cache_dict_lookup m.cache key with
  | none => (default, { m with misses := m.misses + 1 })
  | some entry =>
    if entry.is_expired now then
      (default, { m with cache := cache_dict_erase m.cache key, misses := m.misses + 1 })
    else
      (entry.data,
        { m with
          cache := cache_dict_update m.cache key
            { entry with access_count := entry.access_count + 1 }
          hits := m.hits + 1 })

/-- Claim C10: `get` never serves an expired entry — a missing key
increments `misses` and returns the default; a stored entry whose age
exceeds its ttl is deleted, increments `misses` and returns the default;
a live entry increments `hits` and its `access_count` and returns its
data. -/
theorem cache_get_spec {α : Type} (m : CacheManager α) (now : ℚ) (key : String)
    (default : α) :
    (cache_dict_lookup m.cache key = none →
      cache_get m now key default = (default, { m with misses := m.misses + 1 })) ∧
    (∀ entry, cache_dict_lookup m.cache key = some entry →
      (entry.is_expired now = true →
        cache_get m now key default =
          (default,
            { m with cache := cache_dict_erase m.cache key, misses := m.misses + 1 })) ∧
      (entry.is_expired now = false →
        cache_get m now key default =
          (entry.data,
            { m with
              cache := cache_dict_update m.cache key
                { entry with access_count := entry.access_count + 1 }
              hits := m.hits + 1 }))) := by
  refine ⟨?_, ?_⟩
  · intro h
    simp [cache_get, h]
  · intro entry h
    constructor <;> intro hexp <;> simp [cache_get, h, hexp]

/-- A cache key for the concrete run. -/
def idK : String := "k"

/-- Witness for `cache_get_spec`: a key holding an entry of age 11 with
ttl 10 is expired, so `get` deletes it, counts a miss and returns the
default. -/
theorem cache_get_spec_witness :
    (let entry : CacheEntry Nat := ⟨7, 0, 10, 0⟩
     let m : CacheManager Nat := ⟨[(idK, entry)], 0, 0⟩
     cache_dict_lookup m.cache idK = some entry ∧
       entry.is_expired 11 = true ∧
       cache_get m 11 idK 99 =
         (99, { m with cache := cache_dict_erase m.cache idK, misses := m.misses + 1 })) := by
  have hexp : (⟨7, 0, 10, 0⟩ : CacheEntry Nat).is_expired 11 = true := by
    simp only [CacheEntry.is_expired, decide_eq_true_eq]
    norm_num
  refine ⟨rfl, hexp, ?_⟩
  exact ((cache_get_spec ⟨[(idK, ⟨7, 0, 10, 0⟩)], 0, 0⟩ 11 idK 99).2 ⟨7, 0, 10, 0⟩
    (by rfl)).1 hexp
